import Mathlib

/-!
Verification of the satellite-image brightness normalizer
(`normalizer.py`, class `SatelliteImageNormalizer`).

The numeric engine is embedded shallowly over exact rationals: pixel buffers
are lists of 8-bit sample values (`List ℕ`, each entry at most 255), all
intermediate arithmetic is `ℚ` (the spec fixes the intermediate math as
real-valued; the float32/float64 arithmetic of the source is idealized by
exact rationals), and every stage boundary clips to [0, 255] and truncates
to an 8-bit integer exactly as `np.clip(..., 0, 255).astype(np.uint8)` does.
Wall-clock timing (`processing_time`) is environment I/O and is not modelled;
no claim concerns it.
-/

namespace Normalizer

/-- Clip a real-valued sample to [0, 255], then truncate to an 8-bit integer,
as `np.clip(x, 0, 255).astype(np.uint8)` does at every stage boundary
(`normalizer.py` lines 155-158, 171, 179).  For the clipped, non-negative
value the uint8 cast truncates toward zero, i.e. takes the floor. -/
def clipQuant (x : ℚ) : ℕ := (⌊max 0 (min x 255)⌋).toNat

/-- Arithmetic mean of a list of rationals, as `np.mean` (mean of an empty
list is the junk value `0`; every use below is guarded by non-emptiness). -/
def qmean (l : List ℚ) : ℚ := l.sum / l.length

/-- An 8-bit buffer promoted to real-valued samples
(`img_array.astype(np.float32)` idealized over `ℚ`). -/
def qcast (b : List ℕ) : List ℚ := b.map fun v : ℕ => (v : ℚ)

/-- Mean intensity of an 8-bit buffer, computed in real precision
(`np.mean(img_array)`, `normalizer.py` line 141). -/
def bmean (b : List ℕ) : ℚ := qmean (qcast b)

/-- Stage-1 scaling factor: `target / current_avg` when the current mean is
positive, else the `1.0` fallback (`normalizer.py` lines 144-149). -/
def scaling_factor (target : ℚ) (img : List ℕ) : ℚ :=
  if 0 < bmean img then target / bmean img else 1

/-- Stage 1 (linear scale): multiply every sample by the scaling factor,
clip to [0, 255], quantize to 8 bits (`normalizer.py` lines 152-158). -/
def stage1 (target : ℚ) (img : List ℕ) : List ℕ :=
  img.map fun v : ℕ => clipQuant ((v : ℚ) * scaling_factor target img)

/-- Stage-2 additive adjustment `target - new_avg`
(`normalizer.py` line 169). -/
def adjustment (target : ℚ) (img : List ℕ) : ℚ := target - bmean (stage1 target img)

/-- Stage 2 (fine additive adjustment): add the adjustment to every stage-1
sample in real precision, clip, quantize (`normalizer.py` line 171). -/
def stage2 (target : ℚ) (img : List ℕ) : List ℕ :=
  (stage1 target img).map fun v : ℕ => clipQuant ((v : ℚ) + adjustment target img)

/-- Secondary proportional factor `target / final_avg`
(`normalizer.py` line 178; the source divides unconditionally here). -/
def sec_factor (target : ℚ) (img : List ℕ) : ℚ := target / bmean (stage2 target img)

/-- Stage 3 (secondary proportional adjustment): multiply every stage-2
sample by the secondary factor, clip, quantize (`normalizer.py` line 179). -/
def stage3 (target : ℚ) (img : List ℕ) : List ℕ :=
  (stage2 target img).map fun v : ℕ => clipQuant ((v : ℚ) * sec_factor target img)

/-- The real-valued stage-1 samples before the clip/quantize boundary. -/
def real_stage1 (target : ℚ) (img : List ℕ) : List ℚ :=
  img.map fun v : ℕ => (v : ℚ) * scaling_factor target img

/-- The real-valued stage-2 samples before the clip/quantize boundary. -/
def real_stage2 (target : ℚ) (img : List ℕ) : List ℚ :=
  (stage1 target img).map fun v : ℕ => (v : ℚ) + adjustment target img

/-- The real-valued stage-3 samples before the clip/quantize boundary. -/
def real_stage3 (target : ℚ) (img : List ℕ) : List ℚ :=
  (stage2 target img).map fun v : ℕ => (v : ℚ) * sec_factor target img

/-- Per-image body of `normalize_images` (`normalizer.py` lines 139-185),
transcribed with the same control flow: scale-clip-quantize, stop if the new
mean is within 1.0 of the target, otherwise add the additive adjustment, stop
if within tolerance, otherwise apply the secondary proportional factor. -/
def normalizeImage (target : ℚ) (img : List ℕ) : List ℕ :=
  let current_avg := bmean img
  let factor := if 0 < current_avg then target / current_avg else 1
  let normalized := img.map fun v : ℕ => clipQuant ((v : ℚ) * factor)
  let new_avg := bmean normalized
  if 1 < |new_avg - target| then
    let adj := target - new_avg
    let normalized2 := normalized.map fun v : ℕ => clipQuant ((v : ℚ) + adj)
    let final_avg := bmean normalized2
    if 1 < |final_avg - target| then
      let sf := target / final_avg
      normalized2.map fun v : ℕ => clipQuant ((v : ℚ) * sf)
    else normalized2
  else normalized

/-- One entry of the input archive: a filename plus its decoded grayscale
buffer (the PIL decode/resize step is external to the numeric core). -/
structure ZipEntry where
  name : String
  buffer : List ℕ

/-- `extract_images` (`normalizer.py` lines 63-102): keep the entries whose
lowercased name ends in `.png`.  When none remain, line 73 raises
`ValueError("No PNG images found in the ZIP file")`; that `ValueError` is not
a `BadZipFile`/`IOError`, so the method catches it in its own
`except Exception` clause (lines 100-102) and re-raises it wrapped as
`ValueError("Error processing ZIP file: No PNG images found in the ZIP
file")` — the wrapped message is what escapes to the caller. -/
def extract_images (entries : List ZipEntry) : Except String (List ZipEntry) :=
  let image_files := entries.filter fun e => e.name.toLower.endsWith ".png"
  if image_files.isEmpty then
    .error "Error processing ZIP file: No PNG images found in the ZIP file"
  else .ok image_files

/-- `calculate_global_average` (`normalizer.py` lines 116-126): raise when no
image arrays are loaded, else the mean of the concatenation of all samples. -/
def calculate_global_average (image_arrays : List (List ℕ)) : Except String ℚ :=
  if image_arrays = [] then .error "No images loaded. Call load_images() first."
  else .ok (bmean image_arrays.flatten)

/-- Whether the mean of a corrected buffer is within the 1.0 tolerance of the
target (`normalizer.py` line 238). -/
def withinThreshold (target : ℚ) (img : List ℕ) : Bool :=
  decide (|bmean img - target| ≤ 1)

/-- The count of corrected buffers within tolerance accumulated by the loop
of `process_all` (`normalizer.py` lines 229-240). -/
def images_within_threshold (target : ℚ) (imgs : List (List ℕ)) : ℕ :=
  imgs.countP fun img => withinThreshold target img

/-- The aggregate score (`normalizer.py` line 251):
`(images_within_threshold / len(normalized_images)) * 10` when the list of
normalized images is non-empty, else `0`. -/
def session_score (target : ℚ) (imgs : List (List ℕ)) : ℚ :=
  if imgs = [] then 0
  else (images_within_threshold target imgs : ℚ) / imgs.length * 10

/-- Per-image entry of the statistics dictionary
(`normalizer.py` lines 242-247). -/
structure ImageStats where
  filename : String
  average_intensity : ℚ
  difference_from_target : ℚ
  within_threshold : Bool

/-- The statistics dictionary assembled by `process_all`
(`normalizer.py` lines 221-251); `processing_time` is wall-clock I/O and is
not part of the numeric model. -/
structure SessionStats where
  global_average : ℚ
  image_count : ℕ
  normalized_images : List ImageStats
  images_within_threshold : ℕ
  score : ℚ

/-- The `(success, stats-or-message, saved_paths)` triple returned by
`process_all` (`normalizer.py` lines 256 and 260). -/
inductive RunResult where
  | success (stats : SessionStats) (saved_paths : List String)
  | failure (message : String) (saved_paths : List String)

/-- The boolean first component of the Python triple: `True` on the success
path (`normalizer.py` line 256), `False` on the caught-exception path
(line 260). -/
def RunResult.isSuccess : RunResult → Bool
  | .success _ _ => true
  | .failure _ _ => false

/-- `process_all` (`normalizer.py` lines 205-260): extract, load, compute the
global average (unconditionally), normalize, save, assemble statistics; any
raised error is caught and returned as a failure triple with an empty path
list. -/
def process_all (entries : List ZipEntry) (target_intensity : Option ℚ) : RunResult :=
  match extract_images entries with
  | .error e => .failure e []
  | .ok images =>
    let image_arrays := images.map fun e => e.buffer
    match calculate_global_average image_arrays with
    | .error e => .failure e []
    | .ok global_avg =>
      let target := target_intensity.getD global_avg
      let normalized_images := image_arrays.map fun a => normalizeImage target a
      let saved_paths := (List.range normalized_images.length).map
        fun i => "normalized_image" ++ toString (i + 1) ++ ".png"
      let per_image := normalized_images.enum.map fun p =>
        { filename := "normalized_image" ++ toString (p.1 + 1) ++ ".png"
          average_intensity := bmean p.2
          difference_from_target := |bmean p.2 - target|
          within_threshold := withinThreshold target p.2 : ImageStats }
      .success
        { global_average := global_avg
          image_count := images.length
          normalized_images := per_image
          images_within_threshold := images_within_threshold target normalized_images
          score := session_score target normalized_images }
        saved_paths

/-- The mean of the per-image means.  Modelled from the wording of the spec in
section 4.1 purely as the contrast case: the spec requires the global average
to be the pooled mean and *not* this quantity. -/
def mean_of_per_image_means (image_arrays : List (List ℕ)) : ℚ :=
  qmean (image_arrays.map fun a => bmean a)

/-! ### Basic facts about the clip-and-quantize boundary -/

lemma clipQuant_le_255 (x : ℚ) : clipQuant x ≤ 255 := by
  rw [clipQuant, Int.toNat_le]
  have hy : max 0 (min x 255) ≤ (255 : ℚ) := max_le (by norm_num) (min_le_right _ _)
  exact le_trans (Int.floor_le_floor hy) (by norm_num)

lemma clipQuant_cast_le (x : ℚ) (hx : 0 ≤ x) : (clipQuant x : ℚ) ≤ x := by
  have hy0 : (0 : ℚ) ≤ max 0 (min x 255) := le_max_left _ _
  have hfl : (0 : ℤ) ≤ ⌊max 0 (min x 255)⌋ := Int.floor_nonneg.mpr hy0
  have hyx : max 0 (min x 255) ≤ x := max_le hx (min_le_left _ _)
  have hcast : ((clipQuant x : ℕ) : ℚ) = ((⌊max 0 (min x 255)⌋ : ℤ) : ℚ) := by
    rw [clipQuant]; exact_mod_cast congrArg (fun z : ℤ => (z : ℚ)) (Int.toNat_of_nonneg hfl)
  rw [hcast]
  exact le_trans (Int.floor_le _) hyx

lemma sub_one_lt_clipQuant (x : ℚ) (hx : x ≤ 255) : x - 1 < (clipQuant x : ℚ) := by
  have hy : x ≤ max 0 (min x 255) := le_trans (le_of_eq (min_eq_left hx).symm) (le_max_right _ _)
  have h1 : max 0 (min x 255) - 1 < (⌊max 0 (min x 255)⌋ : ℚ) := Int.sub_one_lt_floor _
  have h2 : ((⌊max 0 (min x 255)⌋ : ℤ) : ℚ) ≤ ((clipQuant x : ℕ) : ℚ) := by
    rw [clipQuant]; exact_mod_cast Int.self_le_toNat _
  have := lt_of_lt_of_le h1 h2
  linarith

lemma le_clipQuant (v : ℕ) (x : ℚ) (hv : v ≤ 255) (hx : (v : ℚ) ≤ x) : v ≤ clipQuant x := by
  have h1 : ((v : ℤ) : ℚ) ≤ max 0 (min x 255) := by
    refine le_trans ?_ (le_max_right _ _)
    push_cast
    exact le_min hx (by exact_mod_cast hv)
  have h2 : (v : ℤ) ≤ ⌊max 0 (min x 255)⌋ := Int.le_floor.mpr h1
  have h3 := Int.toNat_le_toNat h2
  rwa [Int.toNat_natCast] at h3

lemma clipQuant_eq_zero {x : ℚ} (h : clipQuant x = 0) : x < 1 := by
  by_contra hc
  push_neg at hc
  have h1 : 1 ≤ clipQuant x := le_clipQuant 1 x (by norm_num) (by exact_mod_cast hc)
  omega

lemma clipQuant_coe (v : ℕ) (hv : v ≤ 255) : clipQuant (v : ℚ) = v := by
  have h1 : min ((v : ℚ)) 255 = (v : ℚ) := min_eq_left (by exact_mod_cast hv)
  have h2 : max (0 : ℚ) ((v : ℚ)) = (v : ℚ) := max_eq_right (by positivity)
  rw [clipQuant, h1, h2, Int.floor_natCast, Int.toNat_natCast]

lemma clipQuant_eq_floor (x : ℚ) (h0 : 0 ≤ x) (h255 : x ≤ 255) :
    clipQuant x = (⌊x⌋).toNat := by
  rw [clipQuant, min_eq_left h255, max_eq_right h0]

/-! ### Basic facts about list sums and means -/

lemma sum_map_mul_sub (b : List ℕ) (c d : ℚ) :
    (b.map fun v : ℕ => (v : ℚ) * c - d).sum = (qcast b).sum * c - b.length * d := by
  induction b with
  | nil => simp [qcast]
  | cons a l ih =>
    simp only [qcast, List.map_cons, List.sum_cons, List.length_cons] at ih ⊢
    rw [ih]
    push_cast
    ring

lemma sum_map_mul (b : List ℕ) (c : ℚ) :
    (b.map fun v : ℕ => (v : ℚ) * c).sum = (qcast b).sum * c := by
  have h := sum_map_mul_sub b c 0
  simp only [sub_zero, mul_zero] at h
  rw [← h]

lemma sum_le_length_mul (l : List ℚ) (c : ℚ) (h : ∀ x ∈ l, x ≤ c) :
    l.sum ≤ l.length * c := by
  induction l with
  | nil => simp
  | cons a t ih =>
    have ha := h a (List.mem_cons_self a t)
    have ht := ih fun x hx => h x (List.mem_cons_of_mem a hx)
    simp only [List.sum_cons, List.length_cons]
    push_cast
    linarith

lemma sum_nonneg_all_zero (l : List ℚ) (h0 : ∀ x ∈ l, 0 ≤ x) (hs : l.sum = 0) :
    ∀ x ∈ l, x = 0 := by
  induction l with
  | nil => simp
  | cons a t ih =>
    have ha : 0 ≤ a := h0 a (List.mem_cons_self a t)
    have htn : 0 ≤ t.sum := List.sum_nonneg fun x hx => h0 x (List.mem_cons_of_mem a hx)
    have hsum : a + t.sum = 0 := by simpa using hs
    have ha0 : a = 0 := by linarith
    have hts : t.sum = 0 := by linarith
    intro x hx
    rcases List.mem_cons.mp hx with rfl | hx2
    · exact ha0
    · exact ih (fun y hy => h0 y (List.mem_cons_of_mem a hy)) hts x hx2

lemma qcast_sum_nonneg (b : List ℕ) : 0 ≤ (qcast b).sum := by
  refine List.sum_nonneg ?_
  intro x hx
  rcases List.mem_map.mp hx with ⟨v, -, rfl⟩
  positivity

lemma bmean_eq (b : List ℕ) : bmean b = (qcast b).sum / b.length := by
  simp [bmean, qmean, qcast]

lemma bmean_nonneg (b : List ℕ) : 0 ≤ bmean b := by
  rw [bmean_eq]
  have h := qcast_sum_nonneg b
  positivity

lemma bmean_map_eq (b : List ℕ) (f : ℕ → ℕ) :
    bmean (b.map f) = (b.map fun v : ℕ => ((f v : ℕ) : ℚ)).sum / b.length := by
  simp [bmean, qmean, qcast, List.map_map, Function.comp_def]

lemma length_cast_pos {α : Type} (b : List α) (hb : b ≠ []) : (0 : ℚ) < b.length := by
  have := List.length_pos.mpr hb
  exact_mod_cast this

lemma qcast_length (b : List ℕ) : (qcast b).length = b.length := List.length_map _ _

lemma bmean_le_of_forall (b : List ℕ) (c : ℚ) (hb : b ≠ []) (h : ∀ v ∈ b, (v : ℚ) ≤ c) :
    bmean b ≤ c := by
  rw [bmean_eq, div_le_iff₀ (length_cast_pos b hb)]
  have h1 : (qcast b).sum ≤ (qcast b).length * c := by
    refine sum_le_length_mul _ _ ?_
    intro x hx
    rcases List.mem_map.mp hx with ⟨v, hv, rfl⟩
    exact h v hv
  rw [qcast_length] at h1
  linarith

lemma bmean_eq_zero_forall (b : List ℕ) (hb : b ≠ []) (h : bmean b = 0) :
    ∀ v ∈ b, v = 0 := by
  rw [bmean_eq] at h
  have hlen : ((b.length : ℚ)) ≠ 0 := ne_of_gt (length_cast_pos b hb)
  have hsum : (qcast b).sum = 0 := by
    rcases div_eq_zero_iff.mp h with h1 | h1
    · exact h1
    · exact absurd h1 hlen
  intro v hv
  have h2 := sum_nonneg_all_zero (qcast b)
    (fun x hx => by rcases List.mem_map.mp hx with ⟨w, -, rfl⟩; positivity) hsum
    ((v : ℚ)) (List.mem_map.mpr ⟨v, hv, rfl⟩)
  exact_mod_cast h2

/-! ### The staged decomposition of the per-image procedure -/

lemma normalizeImage_eq (target : ℚ) (img : List ℕ) :
    normalizeImage target img =
      if 1 < |bmean (stage1 target img) - target| then
        if 1 < |bmean (stage2 target img) - target| then stage3 target img
        else stage2 target img
      else stage1 target img := rfl

lemma normalizeImage_eq_stage1 (target : ℚ) (img : List ℕ)
    (h : ¬ 1 < |bmean (stage1 target img) - target|) :
    normalizeImage target img = stage1 target img := by
  rw [normalizeImage_eq, if_neg h]

lemma normalizeImage_eq_stage2 (target : ℚ) (img : List ℕ)
    (h1 : 1 < |bmean (stage1 target img) - target|)
    (h2 : ¬ 1 < |bmean (stage2 target img) - target|) :
    normalizeImage target img = stage2 target img := by
  rw [normalizeImage_eq, if_pos h1, if_neg h2]

lemma normalizeImage_eq_stage3 (target : ℚ) (img : List ℕ)
    (h1 : 1 < |bmean (stage1 target img) - target|)
    (h2 : 1 < |bmean (stage2 target img) - target|) :
    normalizeImage target img = stage3 target img := by
  rw [normalizeImage_eq, if_pos h1, if_pos h2]

lemma normalizeImage_cases (target : ℚ) (img : List ℕ) :
    normalizeImage target img = stage1 target img ∨
    normalizeImage target img = stage2 target img ∨
    normalizeImage target img = stage3 target img := by
  rw [normalizeImage_eq]
  split_ifs <;> tauto

lemma mem_map_clipQuant {α : Type} (l : List α) (g : α → ℚ) :
    ∀ s ∈ l.map fun a => clipQuant (g a), s ≤ 255 := by
  intro s hs
  rcases List.mem_map.mp hs with ⟨a, -, rfl⟩
  exact clipQuant_le_255 _

/-! ### Evaluation helpers for concrete buffers -/

lemma clipQuant_eval_nat (x : ℚ) (k : ℕ) (hk : k ≤ 255) (hx : x = (k : ℚ)) :
    clipQuant x = k := by
  rw [hx]
  exact clipQuant_coe k hk

lemma clipQuant_eval_floor (x : ℚ) (k : ℕ) (h0 : 0 ≤ x) (h255 : x ≤ 255)
    (hk : ⌊x⌋ = (k : ℤ)) : clipQuant x = k := by
  rw [clipQuant_eq_floor x h0 h255, hk, Int.toNat_natCast]

lemma clipQuant_ge_255 (x : ℚ) (h : 255 ≤ x) : clipQuant x = 255 := by
  rw [clipQuant, min_eq_right h, max_eq_right (by norm_num : (0 : ℚ) ≤ (255 : ℚ))]
  have h1 : ⌊(255 : ℚ)⌋ = (255 : ℤ) := by norm_num
  rw [h1]
  rfl

/-! ### Main numeric facts about stage 1 -/

lemma bmean_stage1_eq (target : ℚ) (b : List ℕ) :
    bmean (stage1 target b) =
      (b.map fun v : ℕ => ((clipQuant ((v : ℚ) * scaling_factor target b) : ℕ) : ℚ)).sum
        / b.length := by
  rw [stage1]
  exact bmean_map_eq b _

lemma qcast_sum_eq (b : List ℕ) : (qcast b).sum = bmean b * b.length := by
  by_cases hb : b = []
  · subst hb; simp [qcast, bmean, qmean]
  · have hlen : ((b.length : ℚ)) ≠ 0 := ne_of_gt (length_cast_pos b hb)
    rw [bmean_eq, div_mul_cancel₀ _ hlen]

/-- The real-valued stage-1 mean is exactly the target whenever the original
mean is positive: the linear scaling is exact before quantization. -/
lemma qmean_real_stage1 (target : ℚ) (b : List ℕ) (hm : 0 < bmean b) :
    qmean (real_stage1 target b) = target := by
  have hb : b ≠ [] := by
    intro h
    rw [h] at hm
    simp [bmean, qmean, qcast] at hm
  have hlen := length_cast_pos b hb
  rw [real_stage1, qmean, List.length_map, sum_map_mul, qcast_sum_eq,
    scaling_factor, if_pos hm]
  field_simp

/-- Clipping then truncating can only lower the stage-1 samples, so the
stage-1 mean never exceeds a non-negative target (for positive input mean). -/
lemma stage1_upper (b : List ℕ) (target : ℚ) (hm : 0 < bmean b) (ht : 0 ≤ target) :
    bmean (stage1 target b) ≤ target := by
  have hb : b ≠ [] := by
    intro h
    rw [h] at hm
    simp [bmean, qmean, qcast] at hm
  have hlen := length_cast_pos b hb
  have hf : scaling_factor target b = target / bmean b := by
    rw [scaling_factor, if_pos hm]
  have hf0 : 0 ≤ scaling_factor target b := by
    rw [hf]
    positivity
  have hpt : ∀ v ∈ b, ((clipQuant ((v : ℚ) * scaling_factor target b) : ℕ) : ℚ) ≤
      (v : ℚ) * scaling_factor target b := by
    intro v _
    exact clipQuant_cast_le _ (by positivity)
  have hsum := List.sum_le_sum hpt
  have hconv : (qcast b).sum * scaling_factor target b = target * b.length := by
    rw [hf, qcast_sum_eq]
    field_simp
    ring
  rw [bmean_stage1_eq, div_le_iff₀ hlen]
  calc (b.map fun v : ℕ => ((clipQuant ((v : ℚ) * scaling_factor target b) : ℕ) : ℚ)).sum
      ≤ (b.map fun v : ℕ => (v : ℚ) * scaling_factor target b).sum := hsum
    _ = (qcast b).sum * scaling_factor target b := sum_map_mul b _
    _ = target * b.length := hconv

/-- Central tolerance fact: when the original mean is already within 1.0 of a
non-negative target, the stage-1 mean is also within 1.0 of the target. -/
lemma stage1_tolerance (b : List ℕ) (target : ℚ) (hb : b ≠ [])
    (hv : ∀ v ∈ b, v ≤ 255) (ht : 0 ≤ target) (hnear : |bmean b - target| ≤ 1) :
    |bmean (stage1 target b) - target| ≤ 1 := by
  rcases abs_le.mp hnear with ⟨hn1, hn2⟩
  have hlen := length_cast_pos b hb
  by_cases hm : 0 < bmean b
  · have hupper := stage1_upper b target hm ht
    have hf : scaling_factor target b = target / bmean b := by
      rw [scaling_factor, if_pos hm]
    have hf0 : 0 ≤ scaling_factor target b := by
      rw [hf]
      positivity
    have hconv : (qcast b).sum * scaling_factor target b = target * b.length := by
      rw [hf, qcast_sum_eq]
      field_simp
      ring
    have hlow : target - 1 ≤ bmean (stage1 target b) := by
      rcases le_total (scaling_factor target b) 1 with hf1 | hf1
      · -- factor at most one: no clipping, only truncation, each sample loses less than 1
        have hpt : ∀ v ∈ b, (v : ℚ) * scaling_factor target b - 1 ≤
            ((clipQuant ((v : ℚ) * scaling_factor target b) : ℕ) : ℚ) := by
          intro v hvb
          apply le_of_lt
          apply sub_one_lt_clipQuant
          have h255 : (v : ℚ) ≤ 255 := by exact_mod_cast hv v hvb
          have hle : (v : ℚ) * scaling_factor target b ≤ (v : ℚ) * 1 :=
            mul_le_mul_of_nonneg_left hf1 (by positivity)
          linarith
        have hsum := List.sum_le_sum hpt
        rw [sum_map_mul_sub b (scaling_factor target b) 1] at hsum
        rw [bmean_stage1_eq, le_div_iff₀ hlen]
        nlinarith [hsum, hconv]
      · -- factor at least one: scaling then clipping never drops below the original sample
        have hpt : ∀ v ∈ b, ((v : ℕ) : ℚ) ≤
            ((clipQuant ((v : ℚ) * scaling_factor target b) : ℕ) : ℚ) := by
          intro v hvb
          have h1 : v ≤ clipQuant ((v : ℚ) * scaling_factor target b) := by
            apply le_clipQuant v _ (hv v hvb)
            calc ((v : ℕ) : ℚ) = (v : ℚ) * 1 := by ring
              _ ≤ (v : ℚ) * scaling_factor target b :=
                mul_le_mul_of_nonneg_left hf1 (by positivity)
          exact_mod_cast h1
        have hsum := List.sum_le_sum hpt
        have hq : (b.map fun v : ℕ => ((v : ℕ) : ℚ)).sum = (qcast b).sum := rfl
        rw [hq, qcast_sum_eq] at hsum
        rw [bmean_stage1_eq, le_div_iff₀ hlen]
        have hstep : (target - 1) * (b.length : ℚ) ≤ bmean b * b.length :=
          mul_le_mul_of_nonneg_right (by linarith) (by linarith)
        linarith
    exact abs_le.mpr ⟨by linarith, by linarith⟩
  · have hm0 : bmean b = 0 := le_antisymm (not_lt.mp hm) (bmean_nonneg b)
    have hf : scaling_factor target b = 1 := by
      rw [scaling_factor, if_neg hm]
    have hs1 : stage1 target b = b := by
      rw [stage1]
      have hcongr : ∀ v ∈ b, clipQuant ((v : ℚ) * scaling_factor target b) = v := by
        intro v hvb
        rw [hf, mul_one]
        exact clipQuant_coe v (hv v hvb)
      calc b.map (fun v : ℕ => clipQuant ((v : ℚ) * scaling_factor target b))
          = b.map id := List.map_congr_left hcongr
        _ = b := List.map_id b
    rw [hs1]
    exact hnear

/-- Any buffer actually reaching the secondary proportional stage has a
positive stage-2 mean, so the stage-3 division is never by zero. -/
lemma stage2_mean_pos (b : List ℕ) (target : ℚ) (hb : b ≠ []) (ht : 0 ≤ target)
    (h2 : 1 < |bmean (stage2 target b) - target|) : 0 < bmean (stage2 target b) := by
  rcases lt_or_eq_of_le (bmean_nonneg (stage2 target b)) with h | h
  · exact h
  · exfalso
    have hs1ne : stage1 target b ≠ [] := by
      rw [stage1]
      simp [hb]
    have hs2ne : stage2 target b ≠ [] := by
      rw [stage2]
      simp [hs1ne]
    have hz := bmean_eq_zero_forall (stage2 target b) hs2ne h.symm
    have hpt : ∀ v ∈ stage1 target b, (v : ℚ) ≤ 1 - adjustment target b := by
      intro v hvs
      have hmem : clipQuant ((v : ℚ) + adjustment target b) ∈ stage2 target b := by
        rw [stage2]
        exact List.mem_map.mpr ⟨v, hvs, rfl⟩
      have h0 := hz _ hmem
      have hlt := clipQuant_eq_zero h0
      linarith
    have hle := bmean_le_of_forall _ _ hs1ne hpt
    rw [adjustment] at hle
    have htle : target ≤ 1 := by linarith
    rw [← h, zero_sub, abs_neg, abs_of_nonneg ht] at h2
    linarith

/-! ### Claim theorems -/

/-- C2: for every buffer that reaches the secondary proportional stage (both
tolerance checks failed) under a valid non-negative target, the stage-2 mean
is strictly positive, so the factor computed there is `target / avg2` exactly
as the positive branch of the spec states, the `avg2 = 0` fallback of the spec case is
unreachable, and no stage ever divides by a zero mean (stage 1 falls back to
factor 1 when the input mean is zero). -/
theorem stage3_no_zero_division (b : List ℕ) (target : ℚ) (hb : b ≠ []) (ht : 0 ≤ target)
    (_h1 : 1 < |bmean (stage1 target b) - target|)
    (h2 : 1 < |bmean (stage2 target b) - target|) :
    0 < bmean (stage2 target b) ∧
    sec_factor target b = target / bmean (stage2 target b) ∧
    (bmean b = 0 → scaling_factor target b = 1) := by
  refine ⟨stage2_mean_pos b target hb ht h2, rfl, fun h0 => ?_⟩
  rw [scaling_factor, if_neg]
  rw [h0]
  exact lt_irrefl 0

/-- C2 witness: the buffer `[255, 0]` with target `200` reaches the secondary
stage (stage-1 mean 127.5, stage-2 mean 163.5, both outside tolerance) and its
stage-2 mean is positive. -/
theorem stage3_no_zero_division_witness :
    0 < bmean (stage2 200 [255, 0]) ∧
    sec_factor 200 [255, 0] = 200 / bmean (stage2 200 [255, 0]) := by
  have e1 : bmean [255, 0] = 255 / 2 := by norm_num [bmean, qmean, qcast]
  have e2 : scaling_factor 200 [255, 0] = 80 / 51 := by
    rw [scaling_factor, e1, if_pos (by norm_num : (0 : ℚ) < 255 / 2)]
    norm_num
  have e3 : stage1 200 [255, 0] = [255, 0] := by
    rw [stage1]
    simp only [e2, List.map_cons, List.map_nil]
    rw [clipQuant_ge_255 _ (by norm_num), clipQuant_eval_nat _ 0 (by norm_num) (by norm_num)]
  have e4 : adjustment 200 [255, 0] = 145 / 2 := by
    rw [adjustment, e3, e1]
    norm_num
  have e5 : stage2 200 [255, 0] = [255, 72] := by
    rw [stage2, e3]
    simp only [e4, List.map_cons, List.map_nil]
    rw [clipQuant_ge_255 _ (by norm_num),
      clipQuant_eval_floor _ 72 (by norm_num) (by norm_num) (by push_cast; norm_num)]
  have e6 : bmean (stage2 200 [255, 0]) = 327 / 2 := by
    rw [e5]
    norm_num [bmean, qmean, qcast]
  have h1 : 1 < |bmean (stage1 200 [255, 0]) - 200| := by
    rw [e3, e1, abs_of_nonpos (by norm_num)]
    norm_num
  have h2 : 1 < |bmean (stage2 200 [255, 0]) - 200| := by
    rw [e6, abs_of_nonpos (by norm_num)]
    norm_num
  have hmain := stage3_no_zero_division [255, 0] 200 (by decide) (by norm_num) h1 h2
  exact ⟨hmain.1, hmain.2.1⟩

/-- C3: the engine performs at most three correction stages in the fixed
order linear scale, additive adjustment, secondary proportional adjustment;
it stops after stage 1 when the stage-1 mean is within 1.0 of the target,
stops after stage 2 when the stage-2 mean is within tolerance, and otherwise
the stage-3 output is final with no further tolerance check or loop; stage 2
refines the stage-1 output and stage 3 refines the stage-2 output. -/
theorem normalize_three_stage_structure (target : ℚ) (img : List ℕ) :
    (|bmean (stage1 target img) - target| ≤ 1 →
      normalizeImage target img = stage1 target img) ∧
    (1 < |bmean (stage1 target img) - target| →
      |bmean (stage2 target img) - target| ≤ 1 →
      normalizeImage target img = stage2 target img) ∧
    (1 < |bmean (stage1 target img) - target| →
      1 < |bmean (stage2 target img) - target| →
      normalizeImage target img = stage3 target img) ∧
    stage2 target img =
      (stage1 target img).map (fun v : ℕ => clipQuant ((v : ℚ) + adjustment target img)) ∧
    stage3 target img =
      (stage2 target img).map (fun v : ℕ => clipQuant ((v : ℚ) * sec_factor target img)) :=
  ⟨fun h => normalizeImage_eq_stage1 target img (not_lt.mpr h),
    fun h1 h2 => normalizeImage_eq_stage2 target img h1 (not_lt.mpr h2),
    fun h1 h2 => normalizeImage_eq_stage3 target img h1 h2, rfl, rfl⟩

/-- C3 witness: the buffer `[50]` with target `51` satisfies the stage-1
tolerance check, so the engine stops after the linear-scale stage. -/
theorem normalize_three_stage_structure_witness :
    normalizeImage 51 [50] = stage1 51 [50] := by
  have e1 : bmean [50] = 50 := by norm_num [bmean, qmean, qcast]
  have e2 : scaling_factor 51 [50] = 51 / 50 := by
    rw [scaling_factor, e1, if_pos (by norm_num : (0 : ℚ) < 50)]
  have e3 : stage1 51 [50] = [51] := by
    rw [stage1]
    simp only [e2, List.map_cons, List.map_nil]
    rw [clipQuant_eval_nat _ 51 (by norm_num) (by push_cast; norm_num)]
  have e4 : bmean [51] = 51 := by norm_num [bmean, qmean, qcast]
  exact (normalize_three_stage_structure 51 [50]).1
    (by rw [e3, e4, sub_self, abs_zero]; norm_num)

/-- C4: for every 8-bit buffer whose original mean is already within 1.0 of a
non-negative target, the stage-1 output mean is also within 1.0 of the
target, and the engine performs exactly one stage (the result is the stage-1
buffer; no additive or secondary adjustment is applied). -/
theorem near_target_one_stage (b : List ℕ) (target : ℚ) (hb : b ≠ [])
    (hv : ∀ v ∈ b, v ≤ 255) (ht : 0 ≤ target) (hnear : |bmean b - target| ≤ 1) :
    |bmean (stage1 target b) - target| ≤ 1 ∧
    normalizeImage target b = stage1 target b := by
  have h := stage1_tolerance b target hb hv ht hnear
  exact ⟨h, normalizeImage_eq_stage1 target b (not_lt.mpr h)⟩

/-- C4 witness: the buffer `[100]` whose mean equals the target `100`. -/
theorem near_target_one_stage_witness :
    |bmean (stage1 100 [100]) - 100| ≤ 1 ∧
    normalizeImage 100 [100] = stage1 100 [100] := by
  have e1 : bmean [100] = 100 := by norm_num [bmean, qmean, qcast]
  exact near_target_one_stage [100] 100 (by decide) (by decide) (by norm_num)
    (by rw [e1, sub_self, abs_zero]; norm_num)

/-- C6: for every non-empty batch and every target in [0, 255], every sample
of every corrected output buffer lies in [0, 255] (the lower bound holds
because samples are naturals; each stage clips to [0, 255] before
quantizing). -/
theorem output_samples_in_range (batch : List (List ℕ)) (target : ℚ)
    (_hbatch : batch ≠ []) (_ht0 : 0 ≤ target) (_ht255 : target ≤ 255) :
    ∀ img ∈ batch, ∀ s ∈ normalizeImage target img, s ≤ 255 := by
  intro img _ s hs
  rcases normalizeImage_cases target img with h | h | h <;> rw [h] at hs
  · rw [stage1] at hs
    exact mem_map_clipQuant _ _ s hs
  · rw [stage2] at hs
    exact mem_map_clipQuant _ _ s hs
  · rw [stage3] at hs
    exact mem_map_clipQuant _ _ s hs

/-- C6 witness: in the batch `[[7]]` with target `100` the single corrected
buffer is `[100]`, and its sample obeys the 8-bit upper bound. -/
theorem output_samples_in_range_witness : (100 : ℕ) ≤ 255 := by
  have e1 : bmean [7] = 7 := by norm_num [bmean, qmean, qcast]
  have e2 : scaling_factor 100 [7] = 100 / 7 := by
    rw [scaling_factor, e1, if_pos (by norm_num : (0 : ℚ) < 7)]
  have e3 : stage1 100 [7] = [100] := by
    rw [stage1]
    simp only [e2, List.map_cons, List.map_nil]
    rw [clipQuant_eval_nat _ 100 (by norm_num) (by push_cast; norm_num)]
  have e4 : bmean [100] = 100 := by norm_num [bmean, qmean, qcast]
  have e5 : normalizeImage 100 [7] = [100] := by
    rw [normalizeImage_eq_stage1 100 [7] (by rw [e3, e4, sub_self, abs_zero]; norm_num), e3]
  have hmem : (100 : ℕ) ∈ normalizeImage 100 [7] := by
    rw [e5]
    exact List.mem_singleton.mpr rfl
  exact output_samples_in_range [[7]] 100 (by decide) (by norm_num) (by norm_num)
    [7] (by decide) 100 hmem

/-- C9: every stage boundary quantizes by truncation toward zero: on the
clipped range the result is the floor of the real value (it never exceeds the
value and lies within 1 below it), which differs from rounding to nearest
(e.g. at 5/2), and all three stages apply this identical clip-then-truncate
map to their real-valued samples. -/
theorem quantization_truncates (target : ℚ) (b : List ℕ) :
    (∀ x : ℚ, 0 ≤ x → x ≤ 255 →
      clipQuant x = (⌊x⌋).toNat ∧ (clipQuant x : ℚ) ≤ x ∧ x - 1 < clipQuant x) ∧
    clipQuant (5 / 2) = 2 ∧
    ((clipQuant (5 / 2) : ℤ) ≠ round ((5 : ℚ) / 2)) ∧
    stage1 target b = (real_stage1 target b).map clipQuant ∧
    stage2 target b = (real_stage2 target b).map clipQuant ∧
    stage3 target b = (real_stage3 target b).map clipQuant := by
  have h52 : clipQuant (5 / 2) = 2 :=
    clipQuant_eval_floor _ 2 (by norm_num) (by norm_num) (by norm_num)
  refine ⟨fun x h0 h255 =>
    ⟨clipQuant_eq_floor x h0 h255, clipQuant_cast_le x h0, sub_one_lt_clipQuant x h255⟩,
    h52, ?_, ?_, ?_, ?_⟩
  · rw [h52]
    have hr : round ((5 : ℚ) / 2) = 3 := by
      rw [round_eq]
      norm_num
    rw [hr]
    decide
  · rw [stage1, real_stage1, List.map_map]
    rfl
  · rw [stage2, real_stage2, List.map_map]
    rfl
  · rw [stage3, real_stage3, List.map_map]
    rfl

/-- C9 witness: the truncation characterization evaluated at 5/2. -/
theorem quantization_truncates_witness :
    clipQuant (5 / 2) = (⌊(5 / 2 : ℚ)⌋).toNat ∧
    (clipQuant (5 / 2 : ℚ) : ℚ) ≤ 5 / 2 ∧ (5 / 2 : ℚ) - 1 < clipQuant (5 / 2) :=
  (quantization_truncates 0 []).1 (5 / 2) (by norm_num) (by norm_num)

/-- C10: for every buffer with strictly positive original mean and every
non-negative target, the real-valued stage-1 mean equals the target exactly,
and since clipping and truncation can only decrease non-negative samples,
the quantized stage-1 mean never exceeds the target. -/
theorem stage1_mean_le_target (b : List ℕ) (target : ℚ) (hm : 0 < bmean b)
    (ht : 0 ≤ target) :
    qmean (real_stage1 target b) = target ∧
    bmean (stage1 target b) ≤ target ∧
    ∀ x : ℚ, 0 ≤ x → (clipQuant x : ℚ) ≤ x :=
  ⟨qmean_real_stage1 target b hm, stage1_upper b target hm ht,
    fun x h0 => clipQuant_cast_le x h0⟩

/-- C10 witness: the buffer `[1, 3]` with target `2`. -/
theorem stage1_mean_le_target_witness :
    qmean (real_stage1 2 [1, 3]) = 2 ∧ bmean (stage1 2 [1, 3]) ≤ 2 := by
  have h := stage1_mean_le_target [1, 3] 2 (by norm_num [bmean, qmean, qcast]) (by norm_num)
  exact ⟨h.1, h.2.1⟩

/-- C1 (counterexample): the claim asserts that an empty batch with an
explicit target succeeds with an `imageCount = 0` report; in the code the run
instead fails — `extract_images` raises on an empty image set before the
target is ever consulted (its inner `ValueError` re-wrapped by its
`except Exception` clause, lines 100-102), and `process_all` catches the
wrapped error and returns the failure triple. -/
theorem process_all_empty_batch_explicit_target_fails :
    (process_all [] (some 100)).isSuccess = false ∧
    process_all [] (some 100) =
      .failure "Error processing ZIP file: No PNG images found in the ZIP file" [] :=
  ⟨rfl, rfl⟩

/-- C1 (amended): for an empty batch the run fails regardless of whether an
explicit target is supplied; an explicit target does not skip the extraction
check or the unconditional global-mean computation, and the `imageCount = 0`
success report is unreachable.  The failure triple carries the wrapped
extraction message and an empty path list. -/
theorem process_all_empty_batch_always_fails (target : Option ℚ) :
    process_all [] target =
      .failure "Error processing ZIP file: No PNG images found in the ZIP file" [] := rfl

/-- C5: the global average is the arithmetic mean of the pooled sample set:
on any non-empty batch it is the mean of the concatenation of all samples
(characterized by `mean * pooled-count = pooled-sum`), it differs from the
mean of per-image means on a batch with unequal image sizes, and on an empty
batch the computation fails (the `ValueError` of the code standing for
`EmptyBatch`). -/
theorem global_average_pooled :
    (∀ image_arrays : List (List ℕ), image_arrays ≠ [] →
      calculate_global_average image_arrays = .ok (bmean image_arrays.flatten)) ∧
    (∀ (image_arrays : List (List ℕ)) (g : ℚ), image_arrays.flatten ≠ [] →
      calculate_global_average image_arrays = .ok g →
      g * image_arrays.flatten.length = (qcast image_arrays.flatten).sum) ∧
    calculate_global_average [[0], [2, 2]] ≠ .ok (mean_of_per_image_means [[0], [2, 2]]) ∧
    calculate_global_average [] = .error "No images loaded. Call load_images() first." := by
  refine ⟨?_, ?_, ?_, rfl⟩
  · intro arrays harr
    rw [calculate_global_average, if_neg harr]
  · intro arrays g hne hok
    have harr : arrays ≠ [] := by
      intro h
      rw [h] at hne
      simp at hne
    rw [calculate_global_average, if_neg harr] at hok
    injection hok with hg
    rw [← hg, bmean_eq, div_mul_cancel₀ _ (ne_of_gt (length_cast_pos _ hne))]
  · have hval : calculate_global_average [[0], [2, 2]] = .ok (bmean [0, 2, 2]) := rfl
    rw [hval]
    intro hc
    injection hc with hg
    have hA : bmean [0, 2, 2] = 4 / 3 := by norm_num [bmean, qmean, qcast]
    have hB : mean_of_per_image_means [[0], [2, 2]] = 1 := by
      norm_num [mean_of_per_image_means, bmean, qmean, qcast]
    rw [hA, hB] at hg
    norm_num at hg

/-- C5 witness: the pooled-mean equation applied to the batch `[[1, 2]]`. -/
theorem global_average_pooled_witness :
    calculate_global_average [[1, 2]] = .ok (bmean [1, 2]) := by
  have h := global_average_pooled.1 [[1, 2]] (by decide)
  exact h

/-- C7 (counterexample): on the empty batch every image is vacuously within
threshold, yet the score is 0 and not 10, so the clause "equals 10 exactly
when every image is within threshold" fails at `imageCount = 0`. -/
theorem score_empty_batch_counterexample :
    (([] : List (List ℕ)).all fun img => withinThreshold 100 img) = true ∧
    session_score 100 [] = 0 ∧ session_score 100 [] ≠ 10 := by
  refine ⟨rfl, rfl, ?_⟩
  rw [show session_score 100 [] = 0 from rfl]
  norm_num

/-- C7 (amended): the score is `10 * imagesWithinThreshold / imageCount`
(and 0 on an empty batch), always lies in [0, 10], equals 0 exactly when no
image is within threshold or the batch is empty, and equals 10 exactly when
the batch is non-empty and every image is within threshold (ties at exactly
1.0 pass, since `withinThreshold` is `difference <= 1.0`). -/
theorem score_properties (target : ℚ) (imgs : List (List ℕ)) :
    (imgs = [] → session_score target imgs = 0) ∧
    (imgs ≠ [] → session_score target imgs =
      10 * (images_within_threshold target imgs : ℚ) / imgs.length) ∧
    0 ≤ session_score target imgs ∧ session_score target imgs ≤ 10 ∧
    (session_score target imgs = 0 ↔
      images_within_threshold target imgs = 0 ∨ imgs = []) ∧
    (session_score target imgs = 10 ↔
      imgs ≠ [] ∧ ∀ img ∈ imgs, withinThreshold target img = true) := by
  by_cases h : imgs = []
  · subst h
    refine ⟨fun _ => rfl, fun hne => absurd rfl hne, ?_, ?_, ?_, ?_⟩
    · norm_num [session_score]
    · norm_num [session_score]
    · norm_num [session_score]
    · norm_num [session_score]
  · have hlen : (0 : ℚ) < imgs.length := length_cast_pos imgs h
    have hw : images_within_threshold target imgs ≤ imgs.length :=
      List.countP_le_length _
    have hscore : session_score target imgs =
        (images_within_threshold target imgs : ℚ) / imgs.length * 10 := by
      rw [session_score, if_neg h]
    refine ⟨fun he => absurd he h, fun _ => by rw [hscore]; ring, ?_, ?_, ?_, ?_⟩
    · rw [hscore]
      positivity
    · rw [hscore]
      have hcast : ((images_within_threshold target imgs : ℕ) : ℚ) ≤ (imgs.length : ℚ) := by
        exact_mod_cast hw
      have hdiv : (images_within_threshold target imgs : ℚ) / imgs.length ≤ 1 :=
        (div_le_one hlen).mpr hcast
      linarith
    · rw [hscore]
      constructor
      · intro h0
        left
        have hx : (images_within_threshold target imgs : ℚ) / imgs.length = 0 := by
          rcases mul_eq_zero.mp h0 with hx | hx
          · exact hx
          · norm_num at hx
        rcases div_eq_zero_iff.mp hx with hy | hy
        · exact_mod_cast hy
        · exact absurd hy (ne_of_gt hlen)
      · intro hor
        rcases hor with h0 | h0
        · rw [h0]
          norm_num
        · exact absurd h0 h
    · rw [hscore]
      constructor
      · intro h10
        refine ⟨h, ?_⟩
        have hmul : (images_within_threshold target imgs : ℚ) / imgs.length * 10 =
            1 * 10 := by
          rw [h10]
          ring
        have hdiv := mul_right_cancel₀ (by norm_num : (10 : ℚ) ≠ 0) hmul
        have hwl : ((images_within_threshold target imgs : ℕ) : ℚ) = (imgs.length : ℚ) :=
          (div_eq_one_iff_eq (ne_of_gt hlen)).mp hdiv
        have hwn : images_within_threshold target imgs = imgs.length := by
          exact_mod_cast hwl
        rw [images_within_threshold] at hwn
        exact List.countP_eq_length.mp hwn
      · rintro ⟨-, hall⟩
        have hwn : images_within_threshold target imgs = imgs.length := by
          rw [images_within_threshold]
          exact List.countP_eq_length.mpr hall
        rw [hwn, div_self (ne_of_gt hlen), one_mul]

/-- C7 witness: a singleton batch whose image is exactly on target scores
10. -/
theorem score_properties_witness : session_score 100 [[100]] = 10 := by
  have hall : ∀ img ∈ [[100]], withinThreshold 100 img = true := by
    intro img hmem
    rw [List.mem_singleton] at hmem
    subst hmem
    rw [withinThreshold]
    have e1 : bmean [100] = 100 := by norm_num [bmean, qmean, qcast]
    rw [e1, sub_self, abs_zero, decide_eq_true_eq]
    norm_num
  exact (score_properties 100 [[100]]).2.2.2.2.2.mpr ⟨by decide, hall⟩

/-- C8: the top-level run never escapes with an error: for every input it
returns either a failure triple carrying a message and an empty path list, or
a success triple carrying the statistics and the saved paths. -/
theorem process_all_shape (entries : List ZipEntry) (target : Option ℚ) :
    (∃ msg, process_all entries target = .failure msg []) ∨
    ∃ stats paths, process_all entries target = .success stats paths := by
  rcases hres : process_all entries target with ⟨s, p⟩ | ⟨m, p⟩
  · right
    exact ⟨s, p, rfl⟩
  · left
    refine ⟨m, ?_⟩
    suffices hp : p = [] by rw [hp]
    rcases hex : extract_images entries with e | imgs
    · simp only [process_all, hex] at hres
      injection hres with h1 h2
      exact h2.symm
    · rcases hga : calculate_global_average (imgs.map fun e => e.buffer) with e2 | g
      · simp only [process_all, hex, hga] at hres
        injection hres with h1 h2
        exact h2.symm
      · simp only [process_all, hex, hga] at hres
        simp at hres

end Normalizer
